import Mathlib

/-!
Verification of the iconscraper repository: a shallow embedding of the
selector, probe, dispatcher, retry loop, domain orchestrator and URL
resolution, with theorems settling the specification's claims.
-/

namespace Iconscraper

/-- Pixel dimensions of a candidate image (`size` in gatherImages.go). -/
structure Size where
  width : Int
  height : Int
deriving Repr, DecidableEq

/-- A fetched candidate image (`imageData`): its domain, source URL, size,
whether the parsed image handle is present, and the raw bytes. -/
structure ImageData where
  domain : String
  src : String
  size : Size
  imgParsed : Bool
  data : List Nat
deriving Repr, DecidableEq

/-- The square filter applied inside the selector loop: an image survives
unless `squareOnly` is set and its width and height differ
(imageProcessing.go:188). -/
def survives (squareOnly : Bool) (i : ImageData) : Bool :=
  !(squareOnly && (i.size.width != i.size.height))

/-- One update of the `smallestOkImage` tracker (imageProcessing.go:192-198):
if the image's height reaches the target, it replaces the tracker when the
tracker is empty or strictly taller. -/
def stepSmallest (targetHeight : Int) (smallestOk : Option ImageData) (image : ImageData) :
    Option ImageData :=
  if image.size.height - targetHeight ≥ 0 then
    match smallestOk with
    | none => some image
    | some s => if image.size.height < s.size.height then some image else some s
  else smallestOk

/-- One update of the `largestImage` tracker (imageProcessing.go:200-203):
the image replaces the tracker when the tracker is empty or strictly
shorter. -/
def stepLargest (largest : Option ImageData) (image : ImageData) : Option ImageData :=
  match largest with
  | none => some image
  | some l => if image.size.height > l.size.height then some image else some l

/-- The scan loop of `pickBestImage` (imageProcessing.go:185-204), carrying
both trackers over the input list. -/
def pickBestLoop (squareOnly : Bool) (targetHeight : Int) :
    List ImageData → Option ImageData → Option ImageData →
    Option ImageData × Option ImageData
  | [], smallestOk, largest => (smallestOk, largest)
  | image :: rest, smallestOk, largest =>
    if squareOnly && (image.size.width != image.size.height) then
      pickBestLoop squareOnly targetHeight rest smallestOk largest
    else
      pickBestLoop squareOnly targetHeight rest
        (stepSmallest targetHeight smallestOk image) (stepLargest largest image)

/-- `pickBestImage` (imageProcessing.go:179-210): returns the smallest
surviving image at least as tall as the target, else the largest surviving
image, else nothing. -/
def pickBestImage (squareOnly : Bool) (targetHeight : Int) (images : List ImageData) :
    Option ImageData :=
  match pickBestLoop squareOnly targetHeight images none none with
  | (some smallestOk, _) => some smallestOk
  | (none, largest) => largest

/-- First element of minimal `height` among those with `height ≥ t`
(direct-recursive reference form of the `smallestOkImage` tracker). -/
def minQualFirstBy {α : Type} (height : α → Int) (t : Int) : List α → Option α
  | [] => none
  | i :: rest =>
    if height i - t ≥ 0 then
      match minQualFirstBy height t rest with
      | none => some i
      | some m => if height m < height i then some m else some i
    else minQualFirstBy height t rest

/-- First element of maximal `height` (direct-recursive reference form of
the `largestImage` tracker). -/
def maxFirstBy {α : Type} (height : α → Int) : List α → Option α
  | [] => none
  | i :: rest =>
    match maxFirstBy height rest with
    | none => some i
    | some m => if height m > height i then some m else some i

/-- Merge an accumulator value with the minimum-qualifying choice of the
remaining list; ties keep the accumulator (it came earlier). -/
def combineMinBy {α : Type} (height : α → Int) :
    Option α → Option α → Option α
  | none, m => m
  | some a, none => some a
  | some a, some m => if height m < height a then some m else some a

/-- Merge an accumulator value with the maximum choice of the remaining
list; ties keep the accumulator (it came earlier). -/
def combineMaxBy {α : Type} (height : α → Int) :
    Option α → Option α → Option α
  | none, m => m
  | some a, none => some a
  | some a, some m => if height m > height a then some m else some a

/-- Height accessor used by the selector. -/
def imgHeight (i : ImageData) : Int := i.size.height

/-- The MIME type assigned to candidates classified as SVG (referenced as
`svgMimeType` by the repository's tests). -/
def svgMimeType : String := "image/svg+xml"

/-- A collected icon candidate as seen by the config-aware selector:
source URL, sniffed MIME type, and dimensions (meaningless for SVG). -/
structure IconCand where
  url : String
  type : String
  size : Size
deriving Repr, DecidableEq

/-- The caller configuration (`Config` in scraper.go:154-181); the error and
warning sinks are represented by explicit event traces elsewhere. -/
structure Config where
  squareOnly : Bool
  targetHeight : Int
  allowSvg : Bool
  maxConcurrentRequests : Nat
deriving Repr, DecidableEq

/-- Height accessor for icon candidates. -/
def iconHeight (i : IconCand) : Int := i.size.height

/-- Modelled from the spec: SVG classification of a candidate URL (§4.2) —
a URL whose extension is `.svg`, case-insensitively, is classified as SVG
without inspecting the fetched bytes.  The sniffing code that sets
`svgMimeType` is part of the repository but absent from `src/`; only its
tests and callers appear there. -/
def endsWithSvg (url : List Char) : Bool :=
  (url.map Char.toLower).reverse.take 4 = ['g', 'v', 's', '.']

/-- Modelled from the spec: content classification (§4.2) — a `.svg` URL is
typed `svgMimeType` outright; otherwise the type is sniffed from the bytes
(`detect` stands for the external content-type sniffer). -/
def classifyType (detect : List Nat → String) (url : List Char) (body : List Nat) : String :=
  if endsWithSvg url then svgMimeType else detect body

/-- Modelled from the spec: the config-aware selector invoked at
scraper.go:338 (`pickBestImage(config, workers.results())`), whose body is
absent from `src/`.  Per §4.6: if `AllowSvg` is set, the first candidate
classified as SVG is returned immediately, bypassing all other
comparisons; otherwise the square filter is applied and the
smallest-acceptable / largest rule decides. -/
def pickBestImageCfg (config : Config) (icons : List IconCand) : Option IconCand :=
  match (if config.allowSvg then icons.find? (fun i => i.type == svgMimeType) else none) with
  | some svg => some svg
  | none =>
    let surv := icons.filter (fun i => !(config.squareOnly && (i.size.width != i.size.height)))
    match minQualFirstBy iconHeight config.targetHeight surv with
    | some r => some r
    | none => maxFirstBy iconHeight surv

/-- The outcome of one dispatched request (`httpResult` in requests.go:21-27);
`host` is the host of the final URL after redirects. -/
structure HttpResult where
  host : String
  status : Int
  body : List Nat
  err : Option String
deriving Repr, DecidableEq

/-- URL normalization shared by `getImage` and `httpGet`: a string the URL
validator rejects is prefixed with `https://` (imageProcessing.go:38-40,
requests.go:83-85).  The validator itself wraps Go's URL parser, an
external collaborator, and is passed in as `isURLo`. -/
def normalizeUrl (isURLo : String → Bool) (url : String) : String :=
  if !isURLo url then "https://" ++ url else url

/-- `isICOFile` (imageProcessing.go:138-145): the byte list has at least four
elements and starts with the ICO magic number 0, 0, 1, 0. -/
def isICOFile (data : List Nat) : Bool :=
  if data.length < 4 then false
  else
    data.getD 0 1 = 0 && data.getD 1 1 = 0 && data.getD 2 0 = 1 && data.getD 3 1 = 0

/-- `isImage` (imageProcessing.go:162-164): the sniffed content type of the
bytes starts with `image/`; the sniffer (`http.DetectContentType`, a Go
standard-library collaborator) is passed in as `detect`. -/
def isImage (detect : List Nat → String) (data : List Nat) : Bool :=
  (detect data).startsWith "image/"

/-- One observable action of a probe task: a message on the error sink, a
message on the warning sink, a signal on the failure channel, or a decoded
icon on the result channel. -/
inductive GIEvent where
  | errMsg
  | warnMsg
  | failureSig
  | resultSig (d : ImageData)
deriving Repr, DecidableEq

/-- The probe body `getImage` (imageProcessing.go:37-82) as the trace of
messages it emits.  `get` is the dispatcher, `detect` the content sniffer,
`icoInfo` the ICO header decoder reached through the temporary file, and
`decode` the ordinary image decoder; all four are external collaborators
of this function and enter as parameters. -/
def getImageEvents (isURLo : String → Bool) (get : String → HttpResult)
    (detect : List Nat → String) (icoInfo : List Nat → Except String Size)
    (decode : List Nat → Except String Size) (domain url0 : String) : List GIEvent :=
  let url := normalizeUrl isURLo url0
  let r := get url
  match r.err with
  | some _ => [GIEvent.errMsg, GIEvent.failureSig]
  | none =>
    let body := r.body
    if r.status != 200 || !isImage detect body then [GIEvent.failureSig]
    else if isICOFile body then
      match icoInfo body with
      | Except.error _ => [GIEvent.errMsg, GIEvent.failureSig]
      | Except.ok sz =>
        [GIEvent.resultSig { domain := domain, src := url, size := sz, imgParsed := false, data := body }]
    else
      match decode body with
      | Except.error _ => [GIEvent.errMsg, GIEvent.failureSig]
      | Except.ok sz =>
        [GIEvent.resultSig { domain := domain, src := url, size := sz, imgParsed := true, data := body }]

/-- Recognizer for failure signals. -/
def isFailureSig : GIEvent → Bool
  | GIEvent.failureSig => true
  | _ => false

/-- Recognizer for success (result-channel) signals. -/
def isSuccessSig : GIEvent → Bool
  | GIEvent.resultSig _ => true
  | _ => false

/-- Number of failure signals in a probe trace. -/
def countFailures (evs : List GIEvent) : Nat := evs.countP isFailureSig

/-- Number of success signals in a probe trace. -/
def countSuccesses (evs : List GIEvent) : Nat := evs.countP isSuccessSig

/-- A character allowed to start a domain label: `[a-zA-Z0-9_]`
(scraper.go:273). -/
def isLabelStart (c : Char) : Bool := c.isAlphanum || c == '_'

/-- A character allowed inside a domain label: `[a-zA-Z0-9_-]`
(scraper.go:273). -/
def isLabelChar (c : Char) : Bool := c.isAlphanum || c == '_' || c == '-'

/-- Matching phase for the domain-name regular expression
`([a-zA-Z0-9_][a-zA-Z0-9_-]{0,64})(\.[a-zA-Z0-9_][a-zA-Z0-9_-]{0,64})*[\._]?`
anchored at both ends (scraper.go:273): expecting a label, inside a label
with `k` optional characters left, or after a label. -/
inductive REMode where
  | seq
  | rest (k : Nat)
  | tail

/-- Backtracking matcher for the anchored domain-name regular expression of
scraper.go:273, fueled for structural recursion; fuel `2 * length + 4`
always suffices since every three phase changes consume a character. -/
def reMatch : Nat → REMode → List Char → Bool
  | 0, _, _ => false
  | fuel + 1, REMode.seq, cs =>
    match cs with
    | [] => false
    | c :: rest => isLabelStart c && reMatch fuel (REMode.rest 64) rest
  | fuel + 1, REMode.rest k, cs =>
    reMatch fuel REMode.tail cs ||
      (match k, cs with
       | kk + 1, c :: rest => isLabelChar c && reMatch fuel (REMode.rest kk) rest
       | _, _ => false)
  | fuel + 1, REMode.tail, cs =>
    match cs with
    | [] => true
    | ['.'] => true
    | ['_'] => true
    | '.' :: rest => reMatch fuel REMode.seq rest
    | _ => false

/-- `couldBeDomain` (scraper.go:276-278): the byte length is at most 512 and
the string matches the domain-name regular expression. -/
def couldBeDomain (domain : String) : Bool :=
  domain.utf8ByteSize ≤ 512 && reMatch (2 * domain.length + 4) REMode.seq domain.data

/-- One observable action of the domain orchestrator: a message on the error
sink, a message on the warning sink, a root-page fetch, or a result message
(carrying whether an icon was found). -/
inductive PDEvent where
  | errMsg
  | warnMsg
  | fetch (url : String)
  | sendResult (found : Bool)
deriving Repr, DecidableEq

/-- The domain orchestrator `processDomain` (scraper.go:287-340) as the trace
of its observable actions.  The root fetch is the dispatcher call at
scraper.go:303; `parseOk` stands for the external HTML parser's verdict;
candidate gathering and collection (scraper.go:329-333) are abstracted to
their outcome `collected`, which the config-aware selector then judges.
The trace mirrors the source's control flow exactly — in particular, the
invalid-domain branch (scraper.go:294-300) sends its report and nil result
and then falls through without returning. -/
def processDomainEvents (config : Config) (domain : String)
    (fetchO : String → HttpResult) (parseOk : Bool) (collected : List IconCand) :
    List PDEvent :=
  (if !couldBeDomain domain then [PDEvent.errMsg, PDEvent.sendResult false] else []) ++
  (let url := "https://" ++ domain
   let r := fetchO url
   PDEvent.fetch url ::
     (if r.err.isSome then [PDEvent.errMsg, PDEvent.sendResult false]
      else if !parseOk then [PDEvent.errMsg, PDEvent.sendResult false]
      else [PDEvent.sendResult (pickBestImageCfg config collected).isSome]))

/-- The worker pool right after `newHttpWorkerPool` (requests.go:40-52): the
loop there starts exactly `workers` goroutines, all idle; each worker is
one busy-flag in the list. -/
def initPool (workers : Nat) : List Bool := List.replicate workers false

/-- Transitions of the worker pool (requests.go:54-59): an idle worker takes
a job from the channel and begins its single `httpGet`; a busy worker
finishes it and becomes idle again.  A worker runs at most one request at
a time because its loop body is sequential. -/
inductive poolStep : List Bool → List Bool → Prop
  | start (s : List Bool) (i : Nat) (h : s[i]? = some false) : poolStep s (s.set i true)
  | finish (s : List Bool) (i : Nat) (h : s[i]? = some true) : poolStep s (s.set i false)

/-- Number of HTTP requests in flight: the busy workers. -/
def inFlight (s : List Bool) : Nat := s.count true

/-- One iteration of the retry loop of `httpGet` (requests.go:106-127), as
seen from outside: the transport fails, or a response with some status
arrives and reading its body succeeds or fails. -/
inductive AttemptOutcome where
  | transportErr (msg : String)
  | response (status : Int) (readResult : Except String (List Nat))
deriving Repr

/-- An attempt the loop retries after: a transport error, a 5xx status, or a
body-read failure. -/
def retryable : AttemptOutcome → Bool
  | AttemptOutcome.transportErr _ => true
  | AttemptOutcome.response status readResult =>
    status ≥ 500 ||
      (match readResult with
       | Except.error _ => true
       | Except.ok _ => false)

/-- What `httpGet` did: the sleeps it performed (one entry per attempt, in
milliseconds) and the final outcome (status and body, or the last error). -/
structure HttpGetTrace where
  sleeps : List Nat
  result : Except String (Int × List Nat)
deriving Repr

/-- The retry loop of `httpGet` (requests.go:104-141): up to `remaining`
further attempts starting at index `attempt`, sleeping
`500 * attempt` before each; a transport error, a 5xx response, or a
body-read failure records the error and retries; any other successfully
read response breaks out as a success; exhaustion returns the last
error. -/
def httpGetAux (attempts : Nat → AttemptOutcome) :
    Nat → Nat → Option String → HttpGetTrace
  | _, 0, lastErr => { sleeps := [], result := Except.error (lastErr.getD "no attempt made") }
  | attempt, remaining + 1, _ =>
    let sleep := 500 * attempt
    match attempts attempt with
    | AttemptOutcome.transportErr m =>
      let next := httpGetAux attempts (attempt + 1) remaining
        (some ("Failed to send GET request: " ++ m))
      { sleeps := sleep :: next.sleeps, result := next.result }
    | AttemptOutcome.response status readResult =>
      if status ≥ 500 then
        let next := httpGetAux attempts (attempt + 1) remaining
          (some "Server returned a server error status")
        { sleeps := sleep :: next.sleeps, result := next.result }
      else
        match readResult with
        | Except.error m =>
          let next := httpGetAux attempts (attempt + 1) remaining
            (some ("Failed to read response body: " ++ m))
          { sleeps := sleep :: next.sleeps, result := next.result }
        | Except.ok body => { sleeps := [sleep], result := Except.ok (status, body) }

/-- `httpGet` (requests.go:82-142), restricted to its attempt loop: six
attempt slots, no prior error. -/
def httpGet (attempts : Nat → AttemptOutcome) : HttpGetTrace :=
  httpGetAux attempts 0 6 none

/-- Remove one leading slash from a path, if present. -/
def dropLeadingSlash (cs : List Char) : List Char :=
  match cs with
  | [] => []
  | c :: rest => if c = '/' then rest else c :: rest

/-- `getURL` (html.go:22-33) over character lists: an empty path maps to the
domain root, an absolute URL (as judged by the validator `isURLo`, wrapping
Go's URL parser) passes through, and anything else is appended to
`https://{domain}`, inserting a slash when the path does not already start
with one. -/
def getURL (isURLo : List Char → Bool) (domain path : List Char) : List Char :=
  match path with
  | [] => "https://".data ++ domain
  | c :: _ =>
    if isURLo path then path
    else if c = '/' then "https://".data ++ domain ++ path
    else "https://".data ++ domain ++ '/' :: path

/-- Square 400x400 candidate of the spec's first selector example. -/
def img400 : ImageData :=
  { domain := "example.com", src := "a400", size := { width := 400, height := 400 },
    imgParsed := true, data := [] }

/-- Square 128x128 candidate of the spec's first selector example. -/
def img128 : ImageData :=
  { domain := "example.com", src := "b128", size := { width := 128, height := 128 },
    imgParsed := true, data := [] }

/-- Square 600x600 candidate of the spec's first selector example. -/
def img600 : ImageData :=
  { domain := "example.com", src := "c600", size := { width := 600, height := 600 },
    imgParsed := true, data := [] }

/-- Square 100x100 candidate of the spec's second selector example. -/
def img100 : ImageData :=
  { domain := "example.com", src := "d100", size := { width := 100, height := 100 },
    imgParsed := true, data := [] }

/-- Square 90x90 candidate of the spec's second selector example. -/
def img90 : ImageData :=
  { domain := "example.com", src := "e90", size := { width := 90, height := 90 },
    imgParsed := true, data := [] }

/-- First of two equal-height candidates, for the tie-breaking check. -/
def tie100a : ImageData :=
  { domain := "example.com", src := "first100", size := { width := 100, height := 100 },
    imgParsed := true, data := [] }

/-- Second of two equal-height candidates, for the tie-breaking check. -/
def tie100b : ImageData :=
  { domain := "example.com", src := "second100", size := { width := 100, height := 100 },
    imgParsed := true, data := [] }

/-- A non-square candidate, for the square-only checks. -/
def imgWide : ImageData :=
  { domain := "example.com", src := "wide", size := { width := 300, height := 200 },
    imgParsed := true, data := [] }

/-- A non-SVG icon candidate for the selector examples. -/
def iconPng : IconCand :=
  { url := "https://example.com/icon.png", type := "image/png",
    size := { width := 256, height := 256 } }

/-- A non-square SVG icon candidate for the selector examples. -/
def iconSvg : IconCand :=
  { url := "https://example.com/logo.svg", type := "image/svg+xml",
    size := { width := 10, height := 3 } }

/-- The configuration of the repository's own test (unnamed test file,
`TestSomeSites`). -/
def cfgTest : Config :=
  { squareOnly := true, targetHeight := 128, allowSvg := false,
    maxConcurrentRequests := 32 }

/-- A square-only, SVG-allowing configuration for the selector examples. -/
def cfgSvg : Config :=
  { squareOnly := true, targetHeight := 150, allowSvg := true,
    maxConcurrentRequests := 1 }

/-- A dispatcher stub whose every request fails at transport level. -/
def fetchErrStub : String → HttpResult :=
  fun _ => { host := "", status := 0, body := [], err := some "connection refused" }

/-- A dispatcher stub answering every request with an empty 404 page. -/
def fetch404Stub : String → HttpResult :=
  fun _ => { host := "example.com", status := 404, body := [], err := none }

/-- A dispatcher stub answering every request with an empty 500 page. -/
def fetch500Stub : String → HttpResult :=
  fun _ => { host := "example.com", status := 500, body := [], err := none }

/-- A content sniffer stub that never sees an image. -/
def detectHtmlStub : List Nat → String := fun _ => "text/html"

/-- A decoder stub that always fails. -/
def decodeFailStub : List Nat → Except String Size := fun _ => Except.error "bad image"

/-- Attempt schedule of the spec's retry example: two transport failures,
then a successful 200 response. -/
def exAttempts : Nat → AttemptOutcome := fun n =>
  match n with
  | 0 => AttemptOutcome.transportErr "reset"
  | 1 => AttemptOutcome.transportErr "reset"
  | _ => AttemptOutcome.response 200 (Except.ok [7])

/-- Attempt schedule with one transport failure and then a 404 response,
showing that a 4xx terminates the loop as a successful fetch. -/
def exAttempts404 : Nat → AttemptOutcome := fun n =>
  match n with
  | 0 => AttemptOutcome.transportErr "reset"
  | _ => AttemptOutcome.response 404 (Except.ok [9])

theorem minQual_step (t : Int) (s : Option ImageData) (i : ImageData)
    (rest : List ImageData) :
    combineMinBy imgHeight s (minQualFirstBy imgHeight t (i :: rest)) =
    combineMinBy imgHeight (stepSmallest t s i) (minQualFirstBy imgHeight t rest) := by
  by_cases hq : i.size.height - t ≥ 0
  · cases hm : minQualFirstBy imgHeight t rest with
    | none =>
      cases s with
      | none => simp [minQualFirstBy, stepSmallest, combineMinBy, imgHeight, hq, hm]
      | some a =>
        simp only [minQualFirstBy, stepSmallest, combineMinBy, imgHeight, hq, hm, if_pos]
        split_ifs <;> simp [combineMinBy]
    | some m =>
      cases s with
      | none =>
        simp [minQualFirstBy, stepSmallest, combineMinBy, imgHeight, hq, hm]
      | some a =>
        simp only [minQualFirstBy, stepSmallest, combineMinBy, imgHeight, hq, hm, if_pos]
        split_ifs <;> simp [combineMinBy] <;> split_ifs <;> first | rfl | omega
  · cases s with
    | none => simp [minQualFirstBy, stepSmallest, combineMinBy, imgHeight, hq]
    | some a => simp [minQualFirstBy, stepSmallest, combineMinBy, imgHeight, hq]

theorem maxFirst_step (l : Option ImageData) (i : ImageData)
    (rest : List ImageData) :
    combineMaxBy imgHeight l (maxFirstBy imgHeight (i :: rest)) =
    combineMaxBy imgHeight (stepLargest l i) (maxFirstBy imgHeight rest) := by
  cases hm : maxFirstBy imgHeight rest with
  | none =>
    cases l with
    | none => simp [maxFirstBy, stepLargest, combineMaxBy, imgHeight, hm]
    | some a =>
      simp only [maxFirstBy, stepLargest, combineMaxBy, imgHeight, hm]
      split_ifs <;> simp [combineMaxBy]
  | some m =>
    cases l with
    | none =>
      simp [maxFirstBy, stepLargest, combineMaxBy, imgHeight, hm]
    | some a =>
      simp only [maxFirstBy, stepLargest, combineMaxBy, imgHeight, hm]
      split_ifs <;> simp [combineMaxBy] <;> split_ifs <;> first | rfl | omega


theorem pickBestLoop_eq (sq : Bool) (t : Int) :
    ∀ (images : List ImageData) (s l : Option ImageData),
      pickBestLoop sq t images s l =
        (combineMinBy imgHeight s (minQualFirstBy imgHeight t (images.filter (survives sq))),
         combineMaxBy imgHeight l (maxFirstBy imgHeight (images.filter (survives sq)))) := by
  intro images
  induction images with
  | nil =>
    intro s l
    cases s <;> cases l <;> rfl
  | cons i rest ih =>
    intro s l
    by_cases hskip : (sq && (i.size.width != i.size.height)) = true
    · have hs : survives sq i = false := by simp [survives, hskip]
      simp [pickBestLoop, hskip, List.filter_cons, hs, ih]
    · have hb : (sq && (i.size.width != i.size.height)) = false :=
        Bool.eq_false_iff.mpr hskip
      have hs : survives sq i = true := by simp [survives, hb]
      simp only [pickBestLoop, hb, Bool.false_eq_true, if_neg, not_false_iff,
        List.filter_cons, hs, if_pos]
      rw [ih]
      rw [minQual_step, maxFirst_step]

theorem pickBestImage_eq (sq : Bool) (t : Int) (images : List ImageData) :
    pickBestImage sq t images =
      match minQualFirstBy imgHeight t (images.filter (survives sq)) with
      | some r => some r
      | none => maxFirstBy imgHeight (images.filter (survives sq)) := by
  unfold pickBestImage
  rw [pickBestLoop_eq]
  cases minQualFirstBy imgHeight t (images.filter (survives sq)) with
  | none => simp [combineMinBy, combineMaxBy]
  | some r => simp [combineMinBy, combineMaxBy]

theorem minQualFirstBy_eq_none {α : Type} (height : α → Int) (t : Int) (l : List α) :
    minQualFirstBy height t l = none ↔ ∀ i ∈ l, ¬(height i - t ≥ 0) := by
  induction l with
  | nil => simp [minQualFirstBy]
  | cons i rest ih =>
    simp only [minQualFirstBy]
    by_cases hq : height i - t ≥ 0
    · rw [if_pos hq]
      cases hm : minQualFirstBy height t rest with
      | none =>
        constructor
        · intro h
          exact Option.noConfusion h
        · intro h
          exact absurd hq (h i (List.mem_cons_self i rest))
      | some m =>
        constructor
        · intro h
          dsimp only at h
          split_ifs at h
        · intro h
          exact absurd hq (h i (List.mem_cons_self i rest))
    · rw [if_neg hq, ih]
      constructor
      · intro h j hj
        rcases List.mem_cons.mp hj with rfl | hjr
        · exact hq
        · exact h j hjr
      · intro h j hj
        exact h j (List.mem_cons_of_mem i hj)

theorem minQualFirstBy_mem {α : Type} (height : α → Int) (t : Int) :
    ∀ (l : List α) (r : α),
      minQualFirstBy height t l = some r → r ∈ l ∧ height r - t ≥ 0 := by
  intro l
  induction l with
  | nil => intro r h; simp [minQualFirstBy] at h
  | cons i rest ih =>
    intro r h
    simp only [minQualFirstBy] at h
    by_cases hq : height i - t ≥ 0
    · rw [if_pos hq] at h
      cases hm : minQualFirstBy height t rest with
      | none =>
        rw [hm] at h
        have hir : i = r := Option.some.inj h
        subst hir
        exact ⟨List.mem_cons_self i rest, hq⟩
      | some m =>
        rw [hm] at h
        dsimp only at h
        split_ifs at h with hcmp
        · obtain ⟨h1, h2⟩ := ih r (h ▸ hm)
          exact ⟨List.mem_cons_of_mem i h1, h2⟩
        · have hir : i = r := Option.some.inj h
          subst hir
          exact ⟨List.mem_cons_self i rest, hq⟩
    · rw [if_neg hq] at h
      obtain ⟨h1, h2⟩ := ih r h
      exact ⟨List.mem_cons_of_mem i h1, h2⟩

theorem minQualFirstBy_min {α : Type} (height : α → Int) (t : Int) :
    ∀ (l : List α) (r : α),
      minQualFirstBy height t l = some r →
      ∀ j ∈ l, height j - t ≥ 0 → height r ≤ height j := by
  intro l
  induction l with
  | nil => intro r h; simp [minQualFirstBy] at h
  | cons i rest ih =>
    intro r h j hj hjq
    simp only [minQualFirstBy] at h
    by_cases hq : height i - t ≥ 0
    · rw [if_pos hq] at h
      cases hm : minQualFirstBy height t rest with
      | none =>
        rw [hm] at h
        have hir : i = r := Option.some.inj h
        subst hir
        rcases List.mem_cons.mp hj with rfl | hjr
        · omega
        · have := (minQualFirstBy_eq_none height t rest).mp hm j hjr
          omega
      | some m =>
        rw [hm] at h
        dsimp only at h
        split_ifs at h with hcmp
        · have hmr : m = r := Option.some.inj h
          subst hmr
          rcases List.mem_cons.mp hj with rfl | hjr
          · omega
          · exact ih m hm j hjr hjq
        · have hir : i = r := Option.some.inj h
          subst hir
          rcases List.mem_cons.mp hj with rfl | hjr
          · omega
          · have := ih m hm j hjr hjq
            omega
    · rw [if_neg hq] at h
      rcases List.mem_cons.mp hj with rfl | hjr
      · omega
      · exact ih r h j hjr hjq

theorem minQualFirstBy_first {α : Type} (height : α → Int) (t : Int) :
    ∀ (l : List α) (r : α),
      minQualFirstBy height t l = some r →
      l.find? (fun i => height i == height r) = some r := by
  intro l
  induction l with
  | nil => intro r h; simp [minQualFirstBy] at h
  | cons i rest ih =>
    intro r h
    simp only [minQualFirstBy] at h
    by_cases hq : height i - t ≥ 0
    · rw [if_pos hq] at h
      cases hm : minQualFirstBy height t rest with
      | none =>
        rw [hm] at h
        have hir : i = r := Option.some.inj h
        subst hir
        simp [List.find?]
      | some m =>
        rw [hm] at h
        dsimp only at h
        split_ifs at h with hcmp
        · have hmr : m = r := Option.some.inj h
          subst hmr
          have hne : (height i == height m) = false := by
            rw [beq_eq_false_iff_ne]
            omega
          simp only [List.find?, hne]
          exact ih m hm
        · have hir : i = r := Option.some.inj h
          subst hir
          simp [List.find?]
    · rw [if_neg hq] at h
      have hqual := (minQualFirstBy_mem height t rest r h).2
      have hne : (height i == height r) = false := by
        rw [beq_eq_false_iff_ne]
        omega
      simp only [List.find?, hne]
      exact ih r h

theorem maxFirstBy_eq_none {α : Type} (height : α → Int) (l : List α) :
    maxFirstBy height l = none ↔ l = [] := by
  cases l with
  | nil => simp [maxFirstBy]
  | cons i rest =>
    simp only [maxFirstBy]
    cases maxFirstBy height rest with
    | none => simp
    | some m =>
      constructor
      · intro h
        dsimp only at h
        split_ifs at h
      · intro h
        exact List.noConfusion h

theorem maxFirstBy_mem {α : Type} (height : α → Int) :
    ∀ (l : List α) (r : α), maxFirstBy height l = some r → r ∈ l := by
  intro l
  induction l with
  | nil => intro r h; simp [maxFirstBy] at h
  | cons i rest ih =>
    intro r h
    simp only [maxFirstBy] at h
    cases hm : maxFirstBy height rest with
    | none =>
      rw [hm] at h
      have hir : i = r := Option.some.inj h
      subst hir
      exact List.mem_cons_self i rest
    | some m =>
      rw [hm] at h
      dsimp only at h
      split_ifs at h with hcmp
      · exact List.mem_cons_of_mem i (ih r (h ▸ hm))
      · have hir : i = r := Option.some.inj h
        subst hir
        exact List.mem_cons_self i rest

theorem maxFirstBy_max {α : Type} (height : α → Int) :
    ∀ (l : List α) (r : α),
      maxFirstBy height l = some r → ∀ j ∈ l, height j ≤ height r := by
  intro l
  induction l with
  | nil => intro r h; simp [maxFirstBy] at h
  | cons i rest ih =>
    intro r h j hj
    simp only [maxFirstBy] at h
    cases hm : maxFirstBy height rest with
    | none =>
      rw [hm] at h
      have hir : i = r := Option.some.inj h
      subst hir
      rcases List.mem_cons.mp hj with rfl | hjr
      · omega
      · rw [maxFirstBy_eq_none] at hm
        subst hm
        simp at hjr
    | some m =>
      rw [hm] at h
      dsimp only at h
      split_ifs at h with hcmp
      · have hmr : m = r := Option.some.inj h
        subst hmr
        rcases List.mem_cons.mp hj with rfl | hjr
        · omega
        · exact ih m hm j hjr
      · have hir : i = r := Option.some.inj h
        subst hir
        rcases List.mem_cons.mp hj with rfl | hjr
        · omega
        · have := ih m hm j hjr
          omega

theorem maxFirstBy_first {α : Type} (height : α → Int) :
    ∀ (l : List α) (r : α),
      maxFirstBy height l = some r →
      l.find? (fun i => height i == height r) = some r := by
  intro l
  induction l with
  | nil => intro r h; simp [maxFirstBy] at h
  | cons i rest ih =>
    intro r h
    simp only [maxFirstBy] at h
    cases hm : maxFirstBy height rest with
    | none =>
      rw [hm] at h
      have hir : i = r := Option.some.inj h
      subst hir
      simp [List.find?]
    | some m =>
      rw [hm] at h
      dsimp only at h
      split_ifs at h with hcmp
      · have hmr : m = r := Option.some.inj h
        subst hmr
        have hne : (height i == height m) = false := by
          rw [beq_eq_false_iff_ne]
          omega
        simp only [List.find?, hne]
        exact ih m hm
      · have hir : i = r := Option.some.inj h
        subst hir
        simp [List.find?]

theorem pickBestImage_minQual_some (sq : Bool) (t : Int) (images : List ImageData)
    (r : ImageData)
    (h : minQualFirstBy imgHeight t (images.filter (survives sq)) = some r) :
    pickBestImage sq t images = some r := by
  rw [pickBestImage_eq, h]

theorem pickBestImage_minQual_none (sq : Bool) (t : Int) (images : List ImageData)
    (h : minQualFirstBy imgHeight t (images.filter (survives sq)) = none) :
    pickBestImage sq t images = maxFirstBy imgHeight (images.filter (survives sq)) := by
  rw [pickBestImage_eq, h]

theorem pickBestImage_mem_filter (sq : Bool) (t : Int) (images : List ImageData)
    (r : ImageData) (h : pickBestImage sq t images = some r) :
    r ∈ images.filter (survives sq) := by
  rw [pickBestImage_eq] at h
  cases hm : minQualFirstBy imgHeight t (images.filter (survives sq)) with
  | some s =>
    rw [hm] at h
    dsimp only at h
    have hsr : s = r := Option.some.inj h
    subst hsr
    exact (minQualFirstBy_mem imgHeight t _ s hm).1
  | none =>
    rw [hm] at h
    dsimp only at h
    exact maxFirstBy_mem imgHeight _ r h

theorem pickBestImage_find_filter (sq : Bool) (t : Int) (images : List ImageData)
    (r : ImageData) (h : pickBestImage sq t images = some r) :
    (images.filter (survives sq)).find? (fun i => imgHeight i == imgHeight r) = some r := by
  rw [pickBestImage_eq] at h
  cases hm : minQualFirstBy imgHeight t (images.filter (survives sq)) with
  | some s =>
    rw [hm] at h
    dsimp only at h
    have hsr : s = r := Option.some.inj h
    subst hsr
    exact minQualFirstBy_first imgHeight t _ s hm
  | none =>
    rw [hm] at h
    dsimp only at h
    exact maxFirstBy_first imgHeight _ r h

theorem pickBestImage_nil_filter (sq : Bool) (t : Int) (images : List ImageData)
    (h : images.filter (survives sq) = []) : pickBestImage sq t images = none := by
  rw [pickBestImage_eq, h]
  rfl

/-- C1: over any candidate list and configuration, `pickBestImage` returns a
surviving candidate of minimal height among those at least as tall as the
target when one exists, else a surviving candidate of maximal height, else
nothing; on square candidates of heights 400, 128, 600 with target 150 it
returns the 400 candidate, and on heights 100, 90 with target 150 it
returns the 100 candidate. -/
theorem pickBestImage_selects_best :
    (∀ (sq : Bool) (t : Int) (images : List ImageData),
      ((∃ i ∈ images.filter (survives sq), t ≤ i.size.height) →
        ∃ r, pickBestImage sq t images = some r ∧
          r ∈ images.filter (survives sq) ∧ t ≤ r.size.height ∧
          ∀ i ∈ images.filter (survives sq), t ≤ i.size.height →
            r.size.height ≤ i.size.height) ∧
      ((∀ i ∈ images.filter (survives sq), i.size.height < t) →
        images.filter (survives sq) ≠ [] →
        ∃ r, pickBestImage sq t images = some r ∧ r ∈ images.filter (survives sq) ∧
          ∀ i ∈ images.filter (survives sq), i.size.height ≤ r.size.height) ∧
      (images.filter (survives sq) = [] → pickBestImage sq t images = none)) ∧
    pickBestImage true 150 [img400, img128, img600] = some img400 ∧
    pickBestImage true 150 [img100, img90] = some img100 := by
  refine ⟨fun sq t images => ⟨?_, ?_, pickBestImage_nil_filter sq t images⟩, by decide, by decide⟩
  · rintro ⟨i, hi, hiq⟩
    cases hm : minQualFirstBy imgHeight t (images.filter (survives sq)) with
    | none =>
      exfalso
      have := (minQualFirstBy_eq_none imgHeight t _).mp hm i hi
      simp only [imgHeight] at this
      omega
    | some r =>
      obtain ⟨hmem, hqual⟩ := minQualFirstBy_mem imgHeight t _ r hm
      simp only [imgHeight] at hqual
      refine ⟨r, pickBestImage_minQual_some sq t images r hm, hmem, by omega, ?_⟩
      intro j hj hjq
      have := minQualFirstBy_min imgHeight t _ r hm j hj (by simp only [imgHeight]; omega)
      simp only [imgHeight] at this
      omega
  · intro hall hne
    have hm : minQualFirstBy imgHeight t (images.filter (survives sq)) = none := by
      rw [minQualFirstBy_eq_none]
      intro j hj
      have := hall j hj
      simp only [imgHeight]
      omega
    have hpick := pickBestImage_minQual_none sq t images hm
    cases hmax : maxFirstBy imgHeight (images.filter (survives sq)) with
    | none => exact absurd ((maxFirstBy_eq_none imgHeight _).mp hmax) hne
    | some r =>
      refine ⟨r, by rw [hpick, hmax], maxFirstBy_mem imgHeight _ r hmax, ?_⟩
      intro j hj
      have := maxFirstBy_max imgHeight _ r hmax j hj
      simpa only [imgHeight] using this

/-- C1 witness: on the list with heights 90 and 400 and target 150, a
qualifying survivor exists and the theorem yields the promised minimal
qualifying candidate. -/
theorem pickBestImage_selects_best_witness :
    ∃ r, pickBestImage false 150 [img90, img400] = some r ∧
      r ∈ [img90, img400].filter (survives false) ∧ (150 : Int) ≤ r.size.height ∧
      ∀ i ∈ [img90, img400].filter (survives false), (150 : Int) ≤ i.size.height →
        r.size.height ≤ i.size.height :=
  (pickBestImage_selects_best.1 false 150 [img90, img400]).1 ⟨img400, by decide, by decide⟩

/-- C4: with `SquareOnly` set, any returned candidate is square, and if no
candidate is square the selector returns nothing. -/
theorem pickBestImage_squareOnly :
    (∀ (t : Int) (images : List ImageData) (r : ImageData),
      pickBestImage true t images = some r → r.size.width = r.size.height) ∧
    (∀ (t : Int) (images : List ImageData),
      (∀ i ∈ images, i.size.width ≠ i.size.height) →
      pickBestImage true t images = none) := by
  constructor
  · intro t images r h
    have hmem := pickBestImage_mem_filter true t images r h
    have hs := (List.mem_filter.mp hmem).2
    simp [survives] at hs
    exact hs
  · intro t images hall
    apply pickBestImage_nil_filter
    rw [List.filter_eq_nil_iff]
    intro i hi
    simp [survives]
    exact hall i hi

/-- C4 witness: a single non-square candidate under `SquareOnly` yields no
selection. -/
theorem pickBestImage_squareOnly_witness : pickBestImage true 150 [imgWide] = none :=
  pickBestImage_squareOnly.2 150 [imgWide] (by decide)

/-- C10: the selector is a function of its input list whose ties go to the
earlier candidate — any returned candidate is an element of the input and
is the first surviving candidate bearing the returned height — and, as the
concrete conjunct shows, of two equal-height survivors the first is
returned. -/
theorem pickBestImage_first_tie_membership :
    (∀ (sq : Bool) (t : Int) (images : List ImageData) (r : ImageData),
      pickBestImage sq t images = some r →
      r ∈ images ∧
        (images.filter (survives sq)).find?
          (fun i => i.size.height == r.size.height) = some r) ∧
    pickBestImage false 150 [tie100a, tie100b] = some tie100a := by
  constructor
  · intro sq t images r h
    constructor
    · exact List.mem_of_mem_filter (pickBestImage_mem_filter sq t images r h)
    · have := pickBestImage_find_filter sq t images r h
      simpa only [imgHeight] using this
  · decide

/-- C10 witness: applying the theorem to the two equal-height candidates
shows the first one is the returned element and the first match. -/
theorem pickBestImage_first_tie_membership_witness :
    tie100a ∈ [tie100a, tie100b] ∧
      ([tie100a, tie100b].filter (survives false)).find?
        (fun i => i.size.height == tie100a.size.height) = some tie100a :=
  pickBestImage_first_tie_membership.1 false 150 [tie100a, tie100b] tie100a (by decide)

theorem getImage_signal_count (isURLo : String → Bool) (get : String → HttpResult)
    (detect : List Nat → String) (icoInfo decode : List Nat → Except String Size)
    (domain url : String) :
    countFailures (getImageEvents isURLo get detect icoInfo decode domain url) +
      countSuccesses (getImageEvents isURLo get detect icoInfo decode domain url) = 1 := by
  simp only [getImageEvents]
  split
  · rfl
  · split
    · rfl
    · split
      · split
        · rfl
        · rfl
      · split
        · rfl
        · rfl

/-- C2: every probe body emits exactly one of failure signal or result
message — one signal on every control-flow path, never both, never
neither — so over any list of spawned probe inputs the successes and
failures sum to the number of probes and the successes alone never exceed
it. -/
theorem getImage_exactly_one_signal :
    (∀ (isURLo : String → Bool) (get : String → HttpResult) (detect : List Nat → String)
        (icoInfo decode : List Nat → Except String Size) (domain url : String),
      countFailures (getImageEvents isURLo get detect icoInfo decode domain url) +
        countSuccesses (getImageEvents isURLo get detect icoInfo decode domain url) = 1) ∧
    (∀ (isURLo : String → Bool) (get : String → HttpResult) (detect : List Nat → String)
        (icoInfo decode : List Nat → Except String Size) (domain : String)
        (urls : List String),
      (urls.map fun u =>
          countSuccesses (getImageEvents isURLo get detect icoInfo decode domain u)).sum +
        (urls.map fun u =>
          countFailures (getImageEvents isURLo get detect icoInfo decode domain u)).sum =
        urls.length ∧
      (urls.map fun u =>
          countSuccesses (getImageEvents isURLo get detect icoInfo decode domain u)).sum ≤
        urls.length) := by
  constructor
  · exact getImage_signal_count
  · intro a b c d e f urls
    induction urls with
    | nil => simp
    | cons u rest ih =>
      obtain ⟨ih1, ih2⟩ := ih
      have h1 := getImage_signal_count a b c d e f u
      constructor <;> simp only [List.map_cons, List.sum_cons, List.length_cons] <;> omega

/-- C6 counterexample: a candidate fetch that succeeds at transport level
with status 404 produces only the silent failure signal — nothing is sent
to the warning sink (nor the error sink), contrary to the claim's
warning-report half. -/
theorem getImage_non200_counterexample :
    getImageEvents (fun _ => true) fetch404Stub detectHtmlStub decodeFailStub decodeFailStub
        "example.com" "https://example.com/icon.png" = [GIEvent.failureSig] ∧
      GIEvent.warnMsg ∉ getImageEvents (fun _ => true) fetch404Stub detectHtmlStub
        decodeFailStub decodeFailStub "example.com" "https://example.com/icon.png" ∧
      GIEvent.errMsg ∉ getImageEvents (fun _ => true) fetch404Stub detectHtmlStub
        decodeFailStub decodeFailStub "example.com" "https://example.com/icon.png" := by
  refine ⟨by decide, by decide, by decide⟩

/-- C6 amended: a fetch with no transport error whose status is not 200 —
exactly like one whose body is not an image — makes the probe signal
failure silently, with no report on the warning sink or the error sink. -/
theorem getImage_non200_silent :
    ∀ (isURLo : String → Bool) (get : String → HttpResult) (detect : List Nat → String)
      (icoInfo decode : List Nat → Except String Size) (domain url : String),
      (get (normalizeUrl isURLo url)).err = none →
      ((get (normalizeUrl isURLo url)).status ≠ 200 ∨
        isImage detect (get (normalizeUrl isURLo url)).body = false) →
      getImageEvents isURLo get detect icoInfo decode domain url = [GIEvent.failureSig] := by
  intro a b c d e f g herr hcond
  have hc : ((b (normalizeUrl a g)).status != 200 || !isImage c (b (normalizeUrl a g)).body)
      = true := by
    rcases hcond with h | h
    · simp [bne_iff_ne, h]
    · simp [h]
  simp [getImageEvents, herr, hc]

/-- C6 witness: the amended theorem applied to a 500-status fetch of a
non-image body. -/
theorem getImage_non200_silent_witness :
    getImageEvents (fun _ => true) fetch500Stub detectHtmlStub decodeFailStub decodeFailStub
      "example.com" "https://example.com/logo.png" = [GIEvent.failureSig] :=
  getImage_non200_silent (fun _ => true) fetch500Stub detectHtmlStub decodeFailStub
    decodeFailStub "example.com" "https://example.com/logo.png" rfl (Or.inl (by decide))

theorem poolStep_length (s t : List Bool) (h : poolStep s t) : t.length = s.length := by
  cases h <;> simp [List.length_set]

/-- C3: the pool of `newHttpWorkerPool K` starts exactly K workers, all
idle, and in every state reachable by starting and finishing jobs the
number of in-flight requests never exceeds K, since each of the K
sequential workers runs at most one request at a time. -/
theorem pool_inflight_le_workers :
    ∀ (K : Nat),
      (initPool K).length = K ∧ inFlight (initPool K) = 0 ∧
      ∀ s, Relation.ReflTransGen poolStep (initPool K) s → inFlight s ≤ K := by
  intro K
  refine ⟨List.length_replicate K false, ?_, ?_⟩
  · simp [inFlight, initPool, List.count_replicate]
  · intro s hreach
    have hlen : s.length = K := by
      induction hreach with
      | refl => exact List.length_replicate K false
      | tail h1 h2 ih => rw [poolStep_length _ _ h2]; exact ih
    calc inFlight s ≤ s.length := List.count_le_length true s
    _ = K := hlen

/-- C3 witness: with two workers, the state in which the first worker has
taken a job is reachable and holds at most two requests in flight. -/
theorem pool_inflight_le_workers_witness : inFlight [true, false] ≤ 2 :=
  (pool_inflight_le_workers 2).2.2 [true, false]
    (Relation.ReflTransGen.single (poolStep.start (initPool 2) 0 rfl))

/-- C5 (code bug): on the syntactically invalid domain `-a`,
`processDomain` reports on the error sink (not the warning sink) and sends
a nil result, but — missing a return — then still fetches the root page
of the invalid domain and sends a second nil result, instead of
terminating immediately after one result with no fetch. -/
theorem processDomain_invalid_domain_bug :
    couldBeDomain "-a" = false ∧
      processDomainEvents cfgTest "-a" fetchErrStub true [] =
        [PDEvent.errMsg, PDEvent.sendResult false, PDEvent.fetch "https://-a",
         PDEvent.errMsg, PDEvent.sendResult false] :=
  ⟨by decide, by decide⟩

theorem httpGetAux_sleeps (attempts : Nat → AttemptOutcome) :
    ∀ (remaining attempt : Nat) (lastErr : Option String),
      ∃ n, n ≤ remaining ∧
        (httpGetAux attempts attempt remaining lastErr).sleeps =
          (List.range n).map (fun i => 500 * (attempt + i)) := by
  intro remaining
  induction remaining with
  | zero => intro attempt lastErr; exact ⟨0, Nat.le_refl 0, rfl⟩
  | succ rem ih =>
    intro attempt lastErr
    simp only [httpGetAux]
    cases hout : attempts attempt with
    | transportErr m =>
      obtain ⟨n, hn, hs⟩ := ih (attempt + 1) (some ("Failed to send GET request: " ++ m))
      refine ⟨n + 1, by omega, ?_⟩
      dsimp only
      rw [hs, List.range_succ_eq_map, List.map_cons, List.map_map]
      refine congrArg₂ List.cons (by omega) ?_
      refine List.map_congr_left fun a _ => ?_
      simp only [Function.comp_apply, Nat.succ_eq_add_one]
      ring
    | response status readResult =>
      dsimp only
      by_cases h5 : status ≥ 500
      · obtain ⟨n, hn, hs⟩ := ih (attempt + 1) (some "Server returned a server error status")
        refine ⟨n + 1, by omega, ?_⟩
        rw [if_pos h5]
        dsimp only
        rw [hs, List.range_succ_eq_map, List.map_cons, List.map_map]
        refine congrArg₂ List.cons (by omega) ?_
        refine List.map_congr_left fun a _ => ?_
        simp only [Function.comp_apply, Nat.succ_eq_add_one]
        ring
      · cases readResult with
        | error m =>
          obtain ⟨n, hn, hs⟩ := ih (attempt + 1) (some ("Failed to read response body: " ++ m))
          refine ⟨n + 1, by omega, ?_⟩
          rw [if_neg h5]
          dsimp only
          rw [hs, List.range_succ_eq_map, List.map_cons, List.map_map]
          refine congrArg₂ List.cons (by omega) ?_
          refine List.map_congr_left fun a _ => ?_
          simp only [Function.comp_apply, Nat.succ_eq_add_one]
          ring
        | ok body =>
          refine ⟨1, by omega, ?_⟩
          rw [if_neg h5]
          simp [List.range_succ]

theorem httpGetAux_success (attempts : Nat → AttemptOutcome) :
    ∀ (remaining k attempt : Nat) (lastErr : Option String) (status : Int) (body : List Nat),
      k < remaining →
      attempts (attempt + k) = AttemptOutcome.response status (Except.ok body) →
      ¬(status ≥ 500) →
      (∀ j, j < k → retryable (attempts (attempt + j)) = true) →
      (httpGetAux attempts attempt remaining lastErr).result = Except.ok (status, body) ∧
        (httpGetAux attempts attempt remaining lastErr).sleeps.length = k + 1 := by
  intro remaining
  induction remaining with
  | zero =>
    intro k attempt lastErr status body hk
    exact absurd hk (Nat.not_lt_zero k)
  | succ rem ih =>
    intro k attempt lastErr status body hk hsucc h500 hretry
    cases k with
    | zero =>
      rw [Nat.add_zero] at hsucc
      simp only [httpGetAux, hsucc]
      rw [if_neg h500]
      exact ⟨rfl, rfl⟩
    | succ kk =>
      have hr0 := hretry 0 (Nat.succ_pos kk)
      rw [Nat.add_zero] at hr0
      have hshift : ∀ j, j < kk → retryable (attempts (attempt + 1 + j)) = true := by
        intro j hj
        have := hretry (j + 1) (by omega)
        rwa [show attempt + (j + 1) = attempt + 1 + j by omega] at this
      have hsucc2 : attempts (attempt + 1 + kk) =
          AttemptOutcome.response status (Except.ok body) := by
        rwa [show attempt + 1 + kk = attempt + (kk + 1) by omega]
      simp only [httpGetAux]
      cases hout : attempts attempt with
      | transportErr m =>
        dsimp only
        have hnext := ih kk (attempt + 1) (some ("Failed to send GET request: " ++ m))
          status body (by omega) hsucc2 h500 hshift
        exact ⟨hnext.1, by simp [hnext.2]⟩
      | response st rr =>
        dsimp only
        rw [hout] at hr0
        by_cases h5 : st ≥ 500
        · rw [if_pos h5]
          dsimp only
          have hnext := ih kk (attempt + 1) (some "Server returned a server error status")
            status body (by omega) hsucc2 h500 hshift
          exact ⟨hnext.1, by simp [hnext.2]⟩
        · cases rr with
          | ok b =>
            exfalso
            simp [retryable, h5] at hr0
          | error m =>
            rw [if_neg h5]
            dsimp only
            have hnext := ih kk (attempt + 1) (some ("Failed to read response body: " ++ m))
              status body (by omega) hsucc2 h500 hshift
            exact ⟨hnext.1, by simp [hnext.2]⟩

/-- C7: `httpGet` makes at most six attempts, sleeping
attempt-index times 500 milliseconds before each; any prefix of retryable
attempts (transport error, 5xx, or read failure) followed by a
successfully read response of any other status — 4xx included — ends the
loop with that response and no error; in particular two transport
failures followed by a 200 yield a clean success after sleeps of 0, 500
and 1000 milliseconds. -/
theorem httpGet_retry_spec :
    (∀ attempts, (httpGet attempts).sleeps.length ≤ 6 ∧
        (httpGet attempts).sleeps =
          (List.range (httpGet attempts).sleeps.length).map (fun i => 500 * i)) ∧
    (∀ (attempts : Nat → AttemptOutcome) (k : Nat) (status : Int) (body : List Nat),
      k < 6 → attempts k = AttemptOutcome.response status (Except.ok body) →
      ¬(status ≥ 500) → (∀ j, j < k → retryable (attempts j) = true) →
      (httpGet attempts).result = Except.ok (status, body) ∧
        (httpGet attempts).sleeps.length = k + 1) ∧
    ((httpGet exAttempts).result = Except.ok (200, [7]) ∧
      (httpGet exAttempts).sleeps = [0, 500, 1000]) := by
  refine ⟨?_, ?_, rfl, by decide⟩
  · intro attempts
    obtain ⟨n, hn, hs⟩ := httpGetAux_sleeps attempts 6 0 none
    have hlen : (httpGet attempts).sleeps.length = n := by
      simp [httpGet, hs]
    constructor
    · omega
    · rw [hlen]
      simpa [httpGet] using hs
  · intro attempts k status body hk hsucc h500 hretry
    have := httpGetAux_success attempts 6 k 0 none status body hk
      (by simpa using hsucc) h500 (by simpa using hretry)
    exact this

/-- C7 witness: one transport failure then a 404 — the theorem yields a
successful fetch carrying status 404 after two attempts. -/
theorem httpGet_retry_spec_witness :
    (httpGet exAttempts404).result = Except.ok (404, [9]) ∧
      (httpGet exAttempts404).sleeps.length = 2 :=
  httpGet_retry_spec.2.1 exAttempts404 1 404 [9] (by decide) rfl (by decide) (by decide)

/-- C8: with `AllowSvg` set, the selector returns the first candidate
classified as SVG — regardless of its dimensions, squareness, or the
target height — and a URL with extension `.svg` (case-insensitive) is
what classifies a candidate as SVG. -/
theorem pickBestImageCfg_svg_first :
    (∀ (config : Config) (pre post : List IconCand) (svg : IconCand),
      config.allowSvg = true →
      (∀ i ∈ pre, (i.type == svgMimeType) = false) →
      svg.type = svgMimeType →
      pickBestImageCfg config (pre ++ svg :: post) = some svg) ∧
    (∀ (detect : List Nat → String) (url : List Char) (body : List Nat),
      endsWithSvg url = true → classifyType detect url body = svgMimeType) := by
  constructor
  · intro config pre post svg hallow hpre hsvg
    unfold pickBestImageCfg
    rw [hallow]
    have hfind : (pre ++ svg :: post).find? (fun i => i.type == svgMimeType) = some svg := by
      induction pre with
      | nil => simp [List.find?, hsvg]
      | cons p ps ih =>
        have hp := hpre p (List.mem_cons_self p ps)
        simp only [List.cons_append, List.find?, hp]
        exact ih fun i hi => hpre i (List.mem_cons_of_mem p hi)
    simp [hfind]
  · intro detect url body h
    simp [classifyType, h]

/-- C8 witness: with square-only filtering and target 150, a non-square
tiny SVG placed after a PNG is still returned, and its URL's `.SVG`
extension classifies as SVG. -/
theorem pickBestImageCfg_svg_first_witness :
    pickBestImageCfg cfgSvg [iconPng, iconSvg] = some iconSvg ∧
      classifyType detectHtmlStub "https://example.com/logo.SVG".data [] = svgMimeType :=
  ⟨pickBestImageCfg_svg_first.1 cfgSvg [iconPng] [] iconSvg rfl (by decide) rfl,
    pickBestImageCfg_svg_first.2 detectHtmlStub "https://example.com/logo.SVG".data []
      (by decide)⟩

/-- C9 counterexample: the empty path — reachable, since a manifest icon
entry's `src` is resolved without an emptiness check (manifest.go:61-62) —
resolves to the bare domain root with no separating slash, not to the
slash-joined form the claim asserts for every non-absolute path. -/
theorem getURL_empty_path_counterexample :
    getURL (fun _ => false) "example.com".data [] = "https://example.com".data ∧
      getURL (fun _ => false) "example.com".data [] ≠ "https://example.com/".data :=
  ⟨by decide, by decide⟩

/-- C9 amended: a nonempty absolute URL passes through `getURL` unchanged;
the empty path maps to the bare domain root; every other path is joined to
the domain with exactly one separating slash, whether or not it already
starts with one. -/
theorem getURL_resolution :
    (∀ (isURLo : List Char → Bool) (domain path : List Char),
      path ≠ [] → isURLo path = true → getURL isURLo domain path = path) ∧
    (∀ (isURLo : List Char → Bool) (domain : List Char),
      getURL isURLo domain [] = "https://".data ++ domain) ∧
    (∀ (isURLo : List Char → Bool) (domain path : List Char),
      path ≠ [] → isURLo path = false →
      getURL isURLo domain path =
        "https://".data ++ domain ++ '/' :: dropLeadingSlash path) := by
  refine ⟨?_, fun isURLo domain => rfl, ?_⟩
  · intro isURLo domain path hne habs
    cases path with
    | nil => exact absurd rfl hne
    | cons c rest => simp [getURL, habs]
  · intro isURLo domain path hne habs
    cases path with
    | nil => exact absurd rfl hne
    | cons c rest =>
      by_cases hc : c = '/'
      · subst hc
        simp [getURL, habs, dropLeadingSlash]
      · simp [getURL, habs, hc, dropLeadingSlash]

/-- C9 witness: the amended theorem applied to a relative path without a
leading slash, joined with exactly one slash. -/
theorem getURL_resolution_witness :
    getURL (fun _ => false) "example.com".data "a/b".data =
      "https://".data ++ "example.com".data ++ '/' :: dropLeadingSlash "a/b".data :=
  getURL_resolution.2.2 (fun _ => false) "example.com".data "a/b".data (by decide) rfl

end Iconscraper
